import Mathlib

/-
Verification of the emotion-analysis core of the ai-pal-backend service
(`src/main.py`).  The core consists of two pure functions:

* `keyword_based_emotion_detection` — lexicon-based keyword scorer, which
  counts whole-word keyword occurrences per emotion category, normalizes by
  the maximum raw count, and applies a happy-baseline of 0.1 when nothing
  matched, and
* `get_dominant_emotion` — the dominant-emotion selector, with its
  neutral fallback for empty/all-zero score maps and its calm override for
  confidences below 0.1.

Python dicts preserve insertion order and `max(items, key=...)` keeps the
first maximal element, so score maps are embedded as association lists
`List (String × ℚ)` whose order mirrors the dict insertion order.  Python
floats are embedded as rationals; every number arising in the claims (0,
0.1, 0.5, 1) is exactly representable and the comparisons involved agree
with their float counterparts.
-/

namespace AIPal

/-- Python's regex word character `\w`, restricted to ASCII as used by the
lexicon (all keywords are lowercase ASCII letters). -/
def isWordChar (c : Char) : Bool := c.isAlphanum || c = '_'

/-- Whether the keyword `kw` occurs at the head of `t` with a closing word
boundary: `kw` is a prefix of `t` and the character following it (if any)
is not a word character.  (All lexicon keywords consist of word characters,
so the trailing `\b` of the regex reduces to exactly this check.) -/
def matchesAt (kw t : List Char) : Bool :=
  kw.isPrefixOf t &&
    (match t.drop kw.length with
     | [] => true
     | c :: _ => !isWordChar c)

/-- Embedding of `len(re.findall(r'\b' + re.escape(keyword) + r'\b', text))` for an
alphabetic keyword: the number of positions in `text` where `kw` occurs as
a whole word.  `prevWord` records whether the character just before the
current position is a word character (`false` at the start of the string).
Whole-word occurrences of a keyword made of word characters can never
overlap, so counting positions agrees with `re.findall`. -/
def countWW (kw : List Char) : List Char → Bool → Nat
  | [], _ => 0
  | c :: rest, prevWord =>
      (if !prevWord && matchesAt kw (c :: rest) then 1 else 0) +
        countWW kw rest (isWordChar c)

/-- Embedding of `len(text.split())`: the number of maximal runs of non-whitespace
characters.  `inWord` records whether the previous character was
non-whitespace (`false` at the start). -/
def totalWords : List Char → Bool → Nat
  | [], _ => 0
  | c :: rest, inWord =>
      if c.isWhitespace then totalWords rest false
      else (if inWord then 0 else 1) + totalWords rest true

/-- The `emotion_keywords` dict of `keyword_based_emotion_detection`, in its
declaration (= insertion) order. -/
def emotion_keywords : List (String × List String) :=
  [("happy", ["happy", "joy", "excited", "great", "amazing", "wonderful",
              "fantastic", "awesome", "good", "love", "smile", "laugh",
              "cheerful", "delighted"]),
   ("sad", ["sad", "depressed", "unhappy", "miserable", "upset", "down",
            "blue", "grief", "sorrow", "cry", "tears", "lonely",
            "heartbroken"]),
   ("angry", ["angry", "mad", "furious", "rage", "hate", "annoyed",
              "frustrated", "irritated", "pissed", "outraged", "livid",
              "enraged"]),
   ("fear", ["afraid", "scared", "fear", "terrified", "worried", "anxious",
             "panic", "nervous", "frightened", "alarmed", "concerned"]),
   ("surprise", ["surprised", "shocked", "amazed", "astonished", "stunned",
                 "bewildered", "confused", "wow", "unbelievable"])]

/-- Python's `max` over a list (the empty case never arises in the code;
`0` is a dummy value for it). -/
def pyMax : List ℚ → ℚ
  | [] => 0
  | x :: xs => xs.foldl max x

/-- The raw score of one category: the sum over its keywords of the
whole-word occurrence counts in the lowered text
(`scores[emotion] += count`).  The Python dict holds these values as
floats; the counts are natural numbers, embedded in ℕ and cast to ℚ where
the code starts dividing. -/
def rawScore (textLower : List Char) (kws : List String) : ℕ :=
  (kws.map (fun kw => countWW kw.toList textLower false)).sum

/-- The raw-count score map: for each category of `emotion_keywords`, in
declaration order, its raw score against `text.lower()`. -/
def rawScores (text : String) : List (String × ℕ) :=
  emotion_keywords.map
    (fun p => (p.1, rawScore (text.toList.map Char.toLower) p.2))

/-- The initial `scores = {emotion: 0.0 for emotion in emotion_keywords.keys()}`
dict, which is also returned unchanged when the input has zero words. -/
def zeroScores : List (String × ℚ) :=
  emotion_keywords.map (fun p => (p.1, (0 : ℚ)))

/-- The `scores` dict after the counting loop, as the float values the
Python dict holds (each value is the ℚ-cast of the raw count). -/
def scoresQ (text : String) : List (String × ℚ) :=
  (rawScores text).map (fun p => (p.1, (p.2 : ℚ)))

/-- Embedding of `max_score = max(scores.values()) if any(scores.values()) else 1`. -/
def maxScoreOf (scores : List (String × ℚ)) : ℚ :=
  if ∃ p ∈ scores, p.2 ≠ 0 then pyMax (scores.map Prod.snd) else 1

/-- The normalization step:
`if max_score > 0: scores = {k: v / max_score for k, v in scores.items()}`. -/
def normalizeScores (scores : List (String × ℚ)) : List (String × ℚ) :=
  if 0 < maxScoreOf scores then
    scores.map (fun p => (p.1, p.2 / maxScoreOf scores))
  else scores

/-- The final baseline step:
`if all(score == 0 for score in scores.values()): scores['happy'] = 0.1`.
Assigning to the existing key `happy` keeps its position in the dict. -/
def applyBaseline (scores : List (String × ℚ)) : List (String × ℚ) :=
  if ∀ p ∈ scores, p.2 = 0 then
    scores.map (fun p => if p.1 = "happy" then (p.1, (1 : ℚ)/10) else p)
  else scores

/-- Embedding of `keyword_based_emotion_detection` from `src/main.py`: initialize every
category to 0.0; if the input has no words return those zeros; otherwise
accumulate raw whole-word keyword counts, normalize by
`max(scores.values()) if any(scores.values()) else 1` when that maximum is
positive, and finally, if every score is still zero, set `happy` to the
0.1 baseline. -/
def keyword_based_emotion_detection (text : String) : List (String × ℚ) :=
  if totalWords text.toList false = 0 then zeroScores
  else applyBaseline (normalizeScores (scoresQ text))

/-- Python's `max(emotions.items(), key=lambda x: x[1])`: the first pair
attaining the maximal value (Python `max` replaces the current best only on
a strictly greater key).  The empty case never arises (the caller guards
it); `("", 0)` is a dummy value for it. -/
def maxByValue : List (String × ℚ) → String × ℚ
  | [] => ("", 0)
  | [p] => p
  | p :: q :: rest =>
      if (maxByValue (q :: rest)).2 > p.2 then maxByValue (q :: rest) else p

/-- Embedding of `get_dominant_emotion` from `src/main.py`: neutral on an empty or
all-zero map, otherwise the first maximal entry, with the label overridden
to calm when the confidence is strictly below 0.1. -/
def get_dominant_emotion (emotions : List (String × ℚ)) : String × ℚ :=
  if emotions = [] ∨ ∀ p ∈ emotions, p.2 = 0 then ("neutral", 0)
  else if (maxByValue emotions).2 < 1/10 then
    ("calm", (maxByValue emotions).2)
  else maxByValue emotions

/-- Embedding of `analyze_emotion_text2emotion` from `src/main.py`.  The external
library call `te.get_emotion(text)` is modelled as a function argument
returning `Option`: `none` stands for an exception being raised, in which
case the `except` branch falls back to `keyword_based_emotion_detection`.
On success the five categories are remapped (in the `emotion_mapping`
insertion order Happy, Angry, Sad, Surprise, Fear) with
`emotions.get(original, 0.0)`. -/
def analyze_emotion_text2emotion
    (teGetEmotion : String → Option (List (String × ℚ)))
    (text : String) : List (String × ℚ) :=
  match teGetEmotion text with
  | none => keyword_based_emotion_detection text
  | some emotions =>
      [("happy", ((emotions.lookup "Happy").getD 0)),
       ("angry", ((emotions.lookup "Angry").getD 0)),
       ("sad", ((emotions.lookup "Sad").getD 0)),
       ("surprise", ((emotions.lookup "Surprise").getD 0)),
       ("fear", ((emotions.lookup "Fear").getD 0))]

/-! ### Helper lemmas about `pyMax` (Python `max` over a list) -/

lemma foldl_max_init_le (xs : List ℚ) (a : ℚ) : a ≤ xs.foldl max a := by
  induction xs generalizing a with
  | nil => exact le_refl a
  | cons x xs ih =>
      exact le_trans (le_max_left a x) (ih (max a x))

lemma le_foldl_max (xs : List ℚ) (a x : ℚ) (hx : x ∈ xs) :
    x ≤ xs.foldl max a := by
  induction xs generalizing a with
  | nil => cases hx
  | cons y ys ih =>
      rcases List.mem_cons.mp hx with h | h
      · subst h
        exact le_trans (le_max_right a x) (foldl_max_init_le ys (max a x))
      · exact ih (max a y) h

lemma foldl_max_mem (xs : List ℚ) (a : ℚ) :
    xs.foldl max a = a ∨ xs.foldl max a ∈ xs := by
  induction xs generalizing a with
  | nil => exact Or.inl rfl
  | cons y ys ih =>
      rcases ih (max a y) with h | h
      · rcases max_choice a y with hm | hm
        · exact Or.inl (by rw [List.foldl_cons, h, hm])
        · exact Or.inr (by rw [List.foldl_cons, h, hm]; exact List.mem_cons_self y ys)
      · exact Or.inr (List.mem_cons_of_mem y h)

lemma le_pyMax (l : List ℚ) (x : ℚ) (hx : x ∈ l) : x ≤ pyMax l := by
  cases l with
  | nil => cases hx
  | cons y ys =>
      rcases List.mem_cons.mp hx with h | h
      · subst h; exact foldl_max_init_le ys x
      · exact le_foldl_max ys y x h

lemma pyMax_mem (l : List ℚ) (hl : l ≠ []) : pyMax l ∈ l := by
  cases l with
  | nil => exact absurd rfl hl
  | cons y ys =>
      rcases foldl_max_mem ys y with h | h
      · rw [pyMax, h]; exact List.mem_cons_self y ys
      · exact List.mem_cons_of_mem y h

/-! ### Helper lemmas about association-list lookup -/

lemma lookup_map_snd {α β : Type} (l : List (String × α)) (f : α → β)
    (a : String) :
    (l.map (fun p => (p.1, f p.2))).lookup a = (l.lookup a).map f := by
  induction l with
  | nil => rfl
  | cons p t ih =>
      by_cases h : a = p.1
      · subst h
        simp [List.lookup]
      · simp [List.lookup, ih, List.lookup_cons,
          show (a == p.1) = false from beq_false_of_ne h]

lemma lookup_some_mem (l : List (String × ℕ)) (a : String) (v : ℕ)
    (h : l.lookup a = some v) : (a, v) ∈ l := by
  induction l with
  | nil => cases h
  | cons p t ih =>
      by_cases hap : a = p.1
      · subst hap
        simp [List.lookup] at h
        subst h
        exact List.mem_cons_self _ _
      · have hb : (a == p.1) = false := beq_false_of_ne hap
        simp only [List.lookup, hb] at h
        exact List.mem_cons_of_mem p (ih h)

lemma lookup_of_mem_nodup (l : List (String × ℕ)) (p : String × ℕ)
    (hnd : (l.map Prod.fst).Nodup) (hp : p ∈ l) : l.lookup p.1 = some p.2 := by
  induction l with
  | nil => cases hp
  | cons q t ih =>
      rcases List.mem_cons.mp hp with h | h
      · subst h
        simp [List.lookup]
      · have hq : q.1 ≠ p.1 := by
          intro he
          have : p.1 ∈ t.map Prod.fst := List.mem_map_of_mem Prod.fst h
          rw [List.map_cons, List.nodup_cons, he] at hnd
          exact hnd.1 this
        have hb : (p.1 == q.1) = false := beq_false_of_ne (fun he => hq he.symm)
        simp only [List.lookup, hb]
        exact ih (by rw [List.map_cons, List.nodup_cons] at hnd; exact hnd.2) h

/-! ### Helper lemmas about `maxByValue`
(`max(emotions.items(), key=lambda x: x[1])`) -/

lemma maxByValue_mem (l : List (String × ℚ)) (hl : l ≠ []) :
    maxByValue l ∈ l := by
  induction l with
  | nil => exact absurd rfl hl
  | cons p rest ih =>
      cases rest with
      | nil => simp [maxByValue]
      | cons q rest' =>
          simp only [maxByValue]
          split
          · exact List.mem_cons_of_mem p (ih (by simp))
          · exact List.mem_cons_self _ _

lemma le_maxByValue (l : List (String × ℚ)) (p : String × ℚ) (hp : p ∈ l) :
    p.2 ≤ (maxByValue l).2 := by
  induction l with
  | nil => cases hp
  | cons x rest ih =>
      cases rest with
      | nil =>
          rcases List.mem_cons.mp hp with h | h
          · subst h; simp [maxByValue]
          · cases h
      | cons q rest' =>
          simp only [maxByValue]
          split
          · next hgt =>
              rcases List.mem_cons.mp hp with h | h
              · subst h; exact le_of_lt hgt
              · exact ih h
          · next hng =>
              rcases List.mem_cons.mp hp with h | h
              · subst h; exact le_refl _
              · exact le_trans (ih h) (not_lt.mp hng)

lemma maxByValue_snd_eq (l : List (String × ℚ)) (m : ℚ)
    (hub : ∀ p ∈ l, p.2 ≤ m) (hex : ∃ p ∈ l, p.2 = m) :
    (maxByValue l).2 = m := by
  obtain ⟨p, hp, hpm⟩ := hex
  have hne : l ≠ [] := by rintro rfl; cases hp
  have h1 : (maxByValue l).2 ≤ m := hub _ (maxByValue_mem l hne)
  have h2 : m ≤ (maxByValue l).2 := hpm ▸ le_maxByValue l p hp
  exact le_antisymm h1 h2

lemma find?_maxByValue (l : List (String × ℚ)) (hl : l ≠ []) :
    l.find? (fun p => decide (p.2 = (maxByValue l).2)) =
      some (maxByValue l) := by
  induction l with
  | nil => exact absurd rfl hl
  | cons x rest ih =>
      cases rest with
      | nil => simp [maxByValue, List.find?]
      | cons q rest' =>
          simp only [maxByValue]
          split
          · next hgt =>
              rw [List.find?_cons_of_neg, ih (by simp)]
              simp only [decide_eq_true_eq]
              exact ne_of_lt hgt
          · next hng =>
              rw [List.find?_cons_of_pos]
              simp

/-! ### Structural lemmas about the scorer pipeline -/

lemma map_fst_map_pair (s : List (String × ℚ)) (f : String × ℚ → ℚ) :
    (s.map (fun p => (p.1, f p))).map Prod.fst = s.map Prod.fst := by
  induction s with
  | nil => rfl
  | cons p t ih => simp only [List.map_cons, ih]

lemma map_fst_patch (s : List (String × ℚ)) :
    (s.map (fun p => if p.1 = "happy" then (p.1, (1 : ℚ)/10) else p)).map
        Prod.fst = s.map Prod.fst := by
  induction s with
  | nil => rfl
  | cons p t ih =>
      by_cases h : p.1 = "happy"
      · simp only [List.map_cons, if_pos h, ih]
      · simp only [List.map_cons, if_neg h, ih]

/-- The five category names, in the declaration order of
`emotion_keywords`. -/
def categoryNames : List String :=
  ["happy", "sad", "angry", "fear", "surprise"]

lemma rawScores_keys (text : String) :
    (rawScores text).map Prod.fst = categoryNames := rfl

lemma scoresQ_keys (text : String) :
    (scoresQ text).map Prod.fst = categoryNames := rfl

lemma normalizeScores_keys (s : List (String × ℚ)) :
    (normalizeScores s).map Prod.fst = s.map Prod.fst := by
  unfold normalizeScores
  split
  · exact map_fst_map_pair s _
  · rfl

lemma applyBaseline_keys (s : List (String × ℚ)) :
    (applyBaseline s).map Prod.fst = s.map Prod.fst := by
  unfold applyBaseline
  split
  · exact map_fst_patch s
  · rfl

lemma kbed_keys (text : String) :
    (keyword_based_emotion_detection text).map Prod.fst = categoryNames := by
  unfold keyword_based_emotion_detection
  split
  · rfl
  · rw [applyBaseline_keys, normalizeScores_keys]
    exact scoresQ_keys text

lemma scoresQ_nonneg (text : String) :
    ∀ p ∈ scoresQ text, 0 ≤ p.2 := by
  intro p hp
  simp only [scoresQ, List.mem_map] at hp
  obtain ⟨q, _, rfl⟩ := hp
  exact Nat.cast_nonneg q.2

lemma maxScoreOf_pos (s : List (String × ℚ)) (hnn : ∀ p ∈ s, 0 ≤ p.2) :
    0 < maxScoreOf s := by
  unfold maxScoreOf
  split
  · next hex =>
      obtain ⟨p, hp, hpne⟩ := hex
      have h0 : 0 < p.2 := lt_of_le_of_ne (hnn p hp) (Ne.symm hpne)
      exact lt_of_lt_of_le h0 (le_pyMax _ _ (List.mem_map_of_mem Prod.snd hp))
  · norm_num

lemma le_maxScoreOf (s : List (String × ℚ))
    (p : String × ℚ) (hp : p ∈ s) : p.2 ≤ maxScoreOf s := by
  unfold maxScoreOf
  split
  · exact le_pyMax _ _ (List.mem_map_of_mem Prod.snd hp)
  · next hne =>
      push_neg at hne
      rw [hne p hp]
      norm_num

lemma normalizeScores_eq (s : List (String × ℚ)) (hnn : ∀ p ∈ s, 0 ≤ p.2) :
    normalizeScores s = s.map (fun p => (p.1, p.2 / maxScoreOf s)) := by
  unfold normalizeScores
  rw [if_pos (maxScoreOf_pos s hnn)]

lemma normalizeScores_bounds (s : List (String × ℚ))
    (hnn : ∀ p ∈ s, 0 ≤ p.2) :
    ∀ p ∈ normalizeScores s, 0 ≤ p.2 ∧ p.2 ≤ 1 := by
  rw [normalizeScores_eq s hnn]
  intro p hp
  simp only [List.mem_map] at hp
  obtain ⟨q, hq, rfl⟩ := hp
  have hM := maxScoreOf_pos s hnn
  exact ⟨div_nonneg (hnn q hq) (le_of_lt hM),
    (div_le_one hM).mpr (le_maxScoreOf s q hq)⟩

lemma applyBaseline_bounds (s : List (String × ℚ))
    (hb : ∀ p ∈ s, 0 ≤ p.2 ∧ p.2 ≤ 1) :
    ∀ p ∈ applyBaseline s, 0 ≤ p.2 ∧ p.2 ≤ 1 := by
  unfold applyBaseline
  split
  · intro p hp
    simp only [List.mem_map] at hp
    obtain ⟨q, hq, hqe⟩ := hp
    by_cases h : q.1 = "happy"
    · rw [if_pos h] at hqe
      rw [← hqe]
      norm_num
    · rw [if_neg h] at hqe
      rw [← hqe]
      exact hb q hq
  · exact hb

lemma kbed_bounds (text : String) :
    ∀ p ∈ keyword_based_emotion_detection text, 0 ≤ p.2 ∧ p.2 ≤ 1 := by
  unfold keyword_based_emotion_detection
  split
  · intro p hp
    simp only [zeroScores, List.mem_map] at hp
    obtain ⟨q, _, rfl⟩ := hp
    norm_num
  · exact applyBaseline_bounds _
      (normalizeScores_bounds _ (scoresQ_nonneg text))

lemma applyBaseline_exists_nonzero (s : List (String × ℚ))
    (hkeys : s.map Prod.fst = categoryNames) :
    ∃ p ∈ applyBaseline s, p.2 ≠ 0 := by
  unfold applyBaseline
  split
  · have hmem : "happy" ∈ s.map Prod.fst := by
      rw [hkeys]; exact List.mem_cons_self _ _
    obtain ⟨q, hq, hq1⟩ := List.mem_map.mp hmem
    refine ⟨(q.1, (1 : ℚ)/10), ?_, by norm_num⟩
    exact List.mem_map.mpr ⟨q, hq, by simp [hq1]⟩
  · next hns =>
      push_neg at hns
      exact hns

lemma kbed_exists_nonzero (text : String)
    (hw : totalWords text.toList false ≠ 0) :
    ∃ p ∈ keyword_based_emotion_detection text, p.2 ≠ 0 := by
  unfold keyword_based_emotion_detection
  rw [if_neg hw]
  exact applyBaseline_exists_nonzero _
    (by rw [normalizeScores_keys]; exact scoresQ_keys text)

/-! ### Claim theorems -/

/-- Claim C1 (counterexample): on the no-keyword input
"the weather is mild today" the scorer sets happy to the 0.1 baseline,
but the selector does NOT return ("calm", 0.1) as the claim states: the
calm override fires only for confidences strictly below 0.1, and the
baseline is exactly 0.1. -/
theorem no_signal_calm_counterexample :
    get_dominant_emotion
        (keyword_based_emotion_detection "the weather is mild today") ≠
      ("calm", 1/10) := by
  have hk : keyword_based_emotion_detection "the weather is mild today" =
      [("happy", 1/10), ("sad", 0), ("angry", 0), ("fear", 0),
       ("surprise", 0)] := by
    have hraw : rawScores "the weather is mild today" =
        [("happy", 0), ("sad", 0), ("angry", 0), ("fear", 0),
         ("surprise", 0)] := by decide
    have hw : ¬ (totalWords "the weather is mild today".toList false = 0) := by
      decide
    unfold keyword_based_emotion_detection
    rw [if_neg hw]
    norm_num [applyBaseline, normalizeScores, scoresQ, maxScoreOf, pyMax,
      hraw, max_def]
    decide
  rw [hk]
  norm_num [get_dominant_emotion, maxByValue, List.cons_ne_nil]
  decide

/-- Claim C1 (amended): on the no-keyword input "the weather is mild
today" the scorer returns happy = 0.1 and every other category 0.0, and
the selector on that map returns ("happy", 0.1): the 0.1 baseline is not
below the 0.1 threshold, so the calm override does not fire. -/
theorem no_signal_selects_happy :
    keyword_based_emotion_detection "the weather is mild today" =
        [("happy", 1/10), ("sad", 0), ("angry", 0), ("fear", 0),
         ("surprise", 0)] ∧
      get_dominant_emotion
          (keyword_based_emotion_detection "the weather is mild today") =
        ("happy", 1/10) := by
  have hk : keyword_based_emotion_detection "the weather is mild today" =
      [("happy", 1/10), ("sad", 0), ("angry", 0), ("fear", 0),
       ("surprise", 0)] := by
    have hraw : rawScores "the weather is mild today" =
        [("happy", 0), ("sad", 0), ("angry", 0), ("fear", 0),
         ("surprise", 0)] := by decide
    have hw : ¬ (totalWords "the weather is mild today".toList false = 0) := by
      decide
    unfold keyword_based_emotion_detection
    rw [if_neg hw]
    norm_num [applyBaseline, normalizeScores, scoresQ, maxScoreOf, pyMax,
      hraw, max_def]
    decide
  refine ⟨hk, ?_⟩
  rw [hk]
  norm_num [get_dominant_emotion, maxByValue, List.cons_ne_nil]

/-- Claim C2: for every ScoreMap whose maximum value `m` lies strictly
between 0 and 0.1, the selector returns the label "calm" with confidence
equal to that maximum value. -/
theorem low_max_selects_calm (l : List (String × ℚ)) (m : ℚ)
    (hub : ∀ p ∈ l, p.2 ≤ m) (hex : ∃ p ∈ l, p.2 = m)
    (h0 : 0 < m) (h1 : m < 1/10) :
    get_dominant_emotion l = ("calm", m) := by
  obtain ⟨q, hq, hqm⟩ := hex
  have hM : (maxByValue l).2 = m := maxByValue_snd_eq l m hub ⟨q, hq, hqm⟩
  unfold get_dominant_emotion
  rw [if_neg, if_pos]
  · rw [hM]
  · rw [hM]; exact h1
  · rintro (rfl | hall)
    · cases hq
    · rw [hall q hq] at hqm
      exact absurd hqm.symm (ne_of_gt h0)

/-- Witness for C2 at a concrete ScoreMap with maximum 1/20. -/
theorem low_max_selects_calm_witness :
    get_dominant_emotion
        [("happy", 1/20), ("sad", 0), ("angry", 1/20), ("fear", 0),
         ("surprise", 0)] = ("calm", 1/20) := by
  apply low_max_selects_calm _ (1/20)
  · intro p hp
    simp only [List.mem_cons, List.not_mem_nil, or_false] at hp
    rcases hp with rfl | rfl | rfl | rfl | rfl <;> norm_num
  · exact ⟨("happy", 1/20), List.mem_cons_self _ _, rfl⟩
  · norm_num
  · norm_num

/-- Claim C3: for every ScoreMap that is empty or whose values are all
exactly 0, the selector returns ("neutral", 0). -/
theorem all_zero_selects_neutral (l : List (String × ℚ))
    (h : l = [] ∨ ∀ p ∈ l, p.2 = 0) :
    get_dominant_emotion l = ("neutral", 0) := by
  unfold get_dominant_emotion
  rw [if_pos h]

/-- Witness for C3 at the empty ScoreMap and at a concrete all-zero
ScoreMap. -/
theorem all_zero_selects_neutral_witness :
    get_dominant_emotion [] = ("neutral", 0) ∧
      get_dominant_emotion
          [("happy", 0), ("sad", 0), ("angry", 0), ("fear", 0),
           ("surprise", 0)] = ("neutral", 0) :=
  ⟨all_zero_selects_neutral [] (Or.inl rfl),
   all_zero_selects_neutral _ (Or.inr (by norm_num))⟩

/-- Claim C4: for every non-empty input text, the scorer returns a
ScoreMap whose keys are exactly the five fixed categories, each appearing
once, in declaration order, and whose every value lies in [0, 1]. -/
theorem score_map_wellformed (text : String) (htext : text ≠ "") :
    (keyword_based_emotion_detection text).map Prod.fst = categoryNames ∧
      ∀ p ∈ keyword_based_emotion_detection text, 0 ≤ p.2 ∧ p.2 ≤ 1 :=
  ⟨kbed_keys text, kbed_bounds text⟩

/-- Witness for C4 at the input "hello". -/
theorem score_map_wellformed_witness :
    (keyword_based_emotion_detection "hello").map Prod.fst =
        categoryNames ∧
      ∀ p ∈ keyword_based_emotion_detection "hello", 0 ≤ p.2 ∧ p.2 ≤ 1 :=
  score_map_wellformed "hello" (by decide)

/-- Claim C5: for every input with zero words (empty or whitespace-only),
the scorer returns the all-zero ScoreMap (no normalization, no happy
baseline), and the selector on that output returns ("neutral", 0). -/
theorem zero_words_neutral (text : String)
    (h : totalWords text.toList false = 0) :
    keyword_based_emotion_detection text =
        [("happy", 0), ("sad", 0), ("angry", 0), ("fear", 0),
         ("surprise", 0)] ∧
      get_dominant_emotion (keyword_based_emotion_detection text) =
        ("neutral", 0) := by
  have hk : keyword_based_emotion_detection text =
      [("happy", 0), ("sad", 0), ("angry", 0), ("fear", 0),
       ("surprise", 0)] := by
    unfold keyword_based_emotion_detection
    rw [if_pos h]
    rfl
  refine ⟨hk, ?_⟩
  rw [hk]
  unfold get_dominant_emotion
  rw [if_pos (Or.inr (by norm_num))]

/-- Witness for C5 at the empty string and a whitespace-only string. -/
theorem zero_words_neutral_witness :
    keyword_based_emotion_detection "" =
        [("happy", 0), ("sad", 0), ("angry", 0), ("fear", 0),
         ("surprise", 0)] ∧
      get_dominant_emotion (keyword_based_emotion_detection "  ") =
        ("neutral", 0) :=
  ⟨(zero_words_neutral "" (by decide)).1,
   (zero_words_neutral "  " (by decide)).2⟩

/-- Claim C6: keyword matching is whole-word: in "I am mad about madrid"
(lowered by the scorer), the keyword "mad" is counted exactly once — the
occurrence inside "madrid" does not match — so the scorer gives angry
raw count 1 and, after normalization, angry = 1.0 with all other
categories 0. -/
theorem whole_word_single_match :
    countWW "mad".toList
        ("I am mad about madrid".toList.map Char.toLower) false = 1 ∧
      keyword_based_emotion_detection "I am mad about madrid" =
        [("happy", 0), ("sad", 0), ("angry", 1), ("fear", 0),
         ("surprise", 0)] := by
  constructor
  · decide
  · have hraw : rawScores "I am mad about madrid" =
        [("happy", 0), ("sad", 0), ("angry", 1), ("fear", 0),
         ("surprise", 0)] := by decide
    have hw : ¬ (totalWords "I am mad about madrid".toList false = 0) := by
      decide
    unfold keyword_based_emotion_detection
    rw [if_neg hw]
    norm_num [applyBaseline, normalizeScores, scoresQ, maxScoreOf, pyMax,
      hraw, max_def]

/-- Claim C7: normalization divides every raw count by the maximum raw
count: for every input whose raw counts give category `a` twice the raw
count of category `b` (with `b`'s count positive) and every other
category zero, the returned ScoreMap has `a = 1.0` — the top category
scores exactly 1.0 — and `b = 0.5`. -/
theorem normalization_halves (text : String) (a b : String) (k : ℕ)
    (ha : a ∈ categoryNames) (hb : b ∈ categoryNames) (hab : a ≠ b)
    (hz : ∀ p ∈ rawScores text, p.1 ≠ a → p.1 ≠ b → p.2 = 0)
    (hA : (rawScores text).lookup a = some (2 * k))
    (hB : (rawScores text).lookup b = some k)
    (hk : 0 < k)
    (hw : totalWords text.toList false ≠ 0) :
    (keyword_based_emotion_detection text).lookup a = some 1 ∧
      (keyword_based_emotion_detection text).lookup b = some (1/2) := by
  have hnd : ((rawScores text).map Prod.fst).Nodup := by
    rw [rawScores_keys]; decide
  have hval : ∀ p ∈ rawScores text, p.2 ≤ 2 * k := by
    intro p hp
    by_cases hpa : p.1 = a
    · have hl := lookup_of_mem_nodup _ p hnd hp
      rw [hpa, hA] at hl
      rw [Option.some.inj hl]
    · by_cases hpb : p.1 = b
      · have hl := lookup_of_mem_nodup _ p hnd hp
        rw [hpb, hB] at hl
        rw [Option.some.inj hl]
        omega
      · rw [hz p hp hpa hpb]
        omega
  have hmemA : (a, 2 * k) ∈ rawScores text := lookup_some_mem _ _ _ hA
  have h2k : ((2 * k : ℕ) : ℚ) ≠ 0 := Nat.cast_ne_zero.mpr (by omega)
  have hmemAQ : (a, ((2 * k : ℕ) : ℚ)) ∈ scoresQ text :=
    List.mem_map_of_mem (fun p => (p.1, (p.2 : ℚ))) hmemA
  have hubQ : ∀ p ∈ scoresQ text, p.2 ≤ ((2 * k : ℕ) : ℚ) := by
    intro p hp
    simp only [scoresQ, List.mem_map] at hp
    obtain ⟨q, hq, rfl⟩ := hp
    exact_mod_cast Nat.cast_le.mpr (hval q hq)
  have hMax : maxScoreOf (scoresQ text) = ((2 * k : ℕ) : ℚ) := by
    unfold maxScoreOf
    rw [if_pos ⟨(a, ((2 * k : ℕ) : ℚ)), hmemAQ, h2k⟩]
    have hvmem : ((2 * k : ℕ) : ℚ) ∈ (scoresQ text).map Prod.snd :=
      List.mem_map_of_mem Prod.snd hmemAQ
    refine le_antisymm ?_ (le_pyMax _ _ hvmem)
    have hpm := pyMax_mem ((scoresQ text).map Prod.snd)
      (List.ne_nil_of_mem hvmem)
    obtain ⟨q, hq, hqe⟩ := List.mem_map.mp hpm
    rw [← hqe]
    exact hubQ q hq
  have hnorm : normalizeScores (scoresQ text) =
      (scoresQ text).map
        (fun p => (p.1, p.2 / maxScoreOf (scoresQ text))) :=
    normalizeScores_eq _ (scoresQ_nonneg text)
  have hscA : (scoresQ text).lookup a = some ((2 * k : ℕ) : ℚ) := by
    show ((rawScores text).map (fun p => (p.1, (p.2 : ℚ)))).lookup a =
      some ((2 * k : ℕ) : ℚ)
    rw [lookup_map_snd (rawScores text) (fun n => ((n : ℕ) : ℚ)) a, hA,
      Option.map_some']
  have hscB : (scoresQ text).lookup b = some ((k : ℕ) : ℚ) := by
    show ((rawScores text).map (fun p => (p.1, (p.2 : ℚ)))).lookup b =
      some ((k : ℕ) : ℚ)
    rw [lookup_map_snd (rawScores text) (fun n => ((n : ℕ) : ℚ)) b, hB,
      Option.map_some']
  have hdivA : (normalizeScores (scoresQ text)).lookup a =
      ((scoresQ text).lookup a).map
        (fun x => x / maxScoreOf (scoresQ text)) := by
    rw [hnorm]
    exact lookup_map_snd (scoresQ text)
      (fun x => x / maxScoreOf (scoresQ text)) a
  have hdivB : (normalizeScores (scoresQ text)).lookup b =
      ((scoresQ text).lookup b).map
        (fun x => x / maxScoreOf (scoresQ text)) := by
    rw [hnorm]
    exact lookup_map_snd (scoresQ text)
      (fun x => x / maxScoreOf (scoresQ text)) b
  have hlookA : (normalizeScores (scoresQ text)).lookup a = some 1 := by
    rw [hdivA, hscA, Option.map_some', hMax, div_self h2k]
  have hkQ : (k : ℚ) ≠ 0 := Nat.cast_ne_zero.mpr (by omega)
  have hhalf : ((k : ℕ) : ℚ) / ((2 * k : ℕ) : ℚ) = 1/2 := by
    push_cast
    rw [div_eq_div_iff (mul_ne_zero two_ne_zero hkQ) two_ne_zero]
    ring
  have hlookB : (normalizeScores (scoresQ text)).lookup b =
      some (1/2) := by
    rw [hdivB, hscB, Option.map_some', hMax, hhalf]
  have hmemA1 : (a, (1 : ℚ)) ∈ normalizeScores (scoresQ text) := by
    have hm := List.mem_map_of_mem
      (fun p => (p.1, p.2 / maxScoreOf (scoresQ text))) hmemAQ
    rw [← hnorm] at hm
    dsimp only at hm
    rwa [hMax, div_self h2k] at hm
  have hbase : applyBaseline (normalizeScores (scoresQ text)) =
      normalizeScores (scoresQ text) := by
    unfold applyBaseline
    rw [if_neg]
    intro hall
    have := hall _ hmemA1
    norm_num at this
  have hk2 : keyword_based_emotion_detection text =
      normalizeScores (scoresQ text) := by
    unfold keyword_based_emotion_detection
    rw [if_neg hw, hbase]
  rw [hk2]
  exact ⟨hlookA, hlookB⟩

/-- Witness for C7 at the input "happy happy sad" (raw counts: happy 2,
sad 1, all others 0). -/
theorem normalization_halves_witness :
    (keyword_based_emotion_detection "happy happy sad").lookup "happy" =
        some 1 ∧
      (keyword_based_emotion_detection "happy happy sad").lookup "sad" =
        some (1/2) :=
  normalization_halves "happy happy sad" "happy" "sad" 1
    (by decide) (by decide) (by decide)
    (by decide) (by decide) (by decide) (by decide) (by decide)

/-- Claim C8 (counterexample): in the ScoreMap where happy, sad and angry
all tie for the maximum 0.05 (not all-zero), the earliest-declared
category attaining the maximum is happy, yet the selector returns the
label "calm" (the 0.1 threshold override), not "happy". -/
theorem tie_break_counterexample :
    get_dominant_emotion
        [("happy", 1/20), ("sad", 1/20), ("angry", 1/20), ("fear", 0),
         ("surprise", 0)] = ("calm", 1/20) ∧
      (("calm", (1 : ℚ)/20) : String × ℚ).1 ≠ "happy" := by
  constructor
  · norm_num [get_dominant_emotion, maxByValue, List.cons_ne_nil, max_def]
  · decide

/-- Claim C8 (amended): when categories tie for the maximum in a
non-all-zero ScoreMap whose maximum is at least the 0.1 threshold, the
selector returns the first entry attaining the maximum in the map's
order — which for scorer-produced maps is the lexicon declaration order
happy, sad, angry, fear, surprise; below the threshold the label is
overridden to "calm" instead. -/
theorem tie_break_first_in_order (l : List (String × ℚ)) (m : ℚ)
    (pm : String × ℚ)
    (horder : l.map Prod.fst = categoryNames)
    (hub : ∀ p ∈ l, p.2 ≤ m)
    (hfind : l.find? (fun p => decide (p.2 = m)) = some pm)
    (hthr : 1/10 ≤ m) :
    get_dominant_emotion l = pm := by
  have hpmem : pm ∈ l := List.mem_of_find?_eq_some hfind
  have hpv : pm.2 = m := by
    have hs := List.find?_some hfind
    simpa using hs
  have hne : l ≠ [] := List.ne_nil_of_mem hpmem
  have hM : (maxByValue l).2 = m := maxByValue_snd_eq l m hub ⟨pm, hpmem, hpv⟩
  have hfind2 := find?_maxByValue l hne
  rw [hM, hfind] at hfind2
  have hpm_eq : pm = maxByValue l := Option.some.inj hfind2
  unfold get_dominant_emotion
  rw [if_neg, if_neg]
  · exact hpm_eq.symm
  · rw [hM]
    exact not_lt.mpr hthr
  · rintro (rfl | hall)
    · cases hpmem
    · have h0 := hall pm hpmem
      rw [hpv] at h0
      rw [h0] at hthr
      norm_num at hthr

/-- Witness for C8 (amended) at a ScoreMap where sad and angry tie for
the maximum 1: the first tied category in declaration order, sad, is
selected. -/
theorem tie_break_first_in_order_witness :
    get_dominant_emotion
        [("happy", 1/2), ("sad", 1), ("angry", 1), ("fear", 0),
         ("surprise", 0)] = ("sad", 1) := by
  apply tie_break_first_in_order _ 1 ("sad", 1)
  · rfl
  · intro p hp
    simp only [List.mem_cons, List.not_mem_nil, or_false] at hp
    rcases hp with rfl | rfl | rfl | rfl | rfl <;> norm_num
  · rw [List.find?_cons_of_neg, List.find?_cons_of_pos]
    · simp
    · simp only [decide_eq_true_eq]
      norm_num
  · norm_num

/-- Claim C9: whenever the external text2emotion analysis fails (modelled
by the external call returning `none`), `analyze_emotion_text2emotion`
returns exactly the result of the built-in keyword scorer on the same
text. -/
theorem text2emotion_fallback
    (teGetEmotion : String → Option (List (String × ℚ))) (text : String)
    (h : teGetEmotion text = none) :
    analyze_emotion_text2emotion teGetEmotion text =
      keyword_based_emotion_detection text := by
  unfold analyze_emotion_text2emotion
  rw [h]

/-- Witness for C9: an always-failing external scorer on a concrete
input. -/
theorem text2emotion_fallback_witness :
    analyze_emotion_text2emotion (fun _ => none) "hello" =
      keyword_based_emotion_detection "hello" :=
  text2emotion_fallback (fun _ => none) "hello" rfl

/-- Claim C10: for every input with at least one word, the scorer output
is never all-zero (the happy baseline fires when nothing matches), and
hence the selector never returns the label "neutral" on that output. -/
theorem nonzero_words_never_neutral (text : String)
    (hw : totalWords text.toList false ≠ 0) :
    (¬ ∀ p ∈ keyword_based_emotion_detection text, p.2 = 0) ∧
      (get_dominant_emotion (keyword_based_emotion_detection text)).1 ≠
        "neutral" := by
  obtain ⟨q, hq, hqne⟩ := kbed_exists_nonzero text hw
  have hnz : ¬ ∀ p ∈ keyword_based_emotion_detection text, p.2 = 0 :=
    fun hall => hqne (hall q hq)
  refine ⟨hnz, ?_⟩
  have hne : keyword_based_emotion_detection text ≠ [] := by
    intro he
    rw [he] at hq
    cases hq
  unfold get_dominant_emotion
  rw [if_neg (by rintro (he | hall); exacts [hne he, hnz hall])]
  split
  · exact fun h => (by decide : ¬("calm" : String) = "neutral") h
  · have hmem := maxByValue_mem (keyword_based_emotion_detection text) hne
    have hfst : (maxByValue (keyword_based_emotion_detection text)).1 ∈
        (keyword_based_emotion_detection text).map Prod.fst :=
      List.mem_map_of_mem Prod.fst hmem
    rw [kbed_keys] at hfst
    intro heq
    rw [heq] at hfst
    exact absurd hfst (by decide)

/-- Witness for C10 at the input "hello". -/
theorem nonzero_words_never_neutral_witness :
    (¬ ∀ p ∈ keyword_based_emotion_detection "hello", p.2 = 0) ∧
      (get_dominant_emotion (keyword_based_emotion_detection "hello")).1 ≠
        "neutral" :=
  nonzero_words_never_neutral "hello" (by decide)

end AIPal
